import Mathlib

/-!
Verification of the article consolidation pipeline of the google-news-tool
repository (src/handler.py): URL-level deduplication (`_dedup_by_url`),
fuzzy title-similarity deduplication (`_dedup_by_title`), and importance
reranking (`_rerank`), together with the response assembly in `execute`.

The Python code is shallowly embedded: dicts become a structure, Python
floats for the Jaccard ratio become exact rationals (for the set sizes that
occur, `len(a & b) / len(a | b) > 0.5` in IEEE doubles agrees exactly with
the rational comparison), Python's insertion-ordered dict in `_dedup_by_url`
becomes a fold carrying the list of seen keys, and the in-place clustering
loop of `_dedup_by_title` becomes explicit recursion.
-/

/-- Canonical article record, as produced by `_normalize_article`
(src/handler.py lines 195-204): all fields are strings except the
`also_reported_by` list of source names. -/
structure Article where
  title : String
  source : String
  date : String
  published_at : String
  description : String
  url : String
  image_url : String
  also_reported_by : List String
deriving DecidableEq, Repr

/-- The `_STOP_WORDS` set of src/handler.py lines 16-22. -/
def stopWords : List String :=
  ["the", "a", "an", "in", "on", "at", "to", "for", "of", "is", "are", "was",
   "were", "and", "or", "but", "not", "with", "from", "by", "as", "it", "its",
   "this", "that", "has", "have", "had", "be", "been", "will", "would", "can",
   "could", "may", "might", "do", "does", "did", "up", "out", "over", "after",
   "into", "than", "how", "what", "when", "who", "all", "more", "about"]

/-- A regex `\w` word character (ASCII reading): letter, digit or underscore. -/
def isWordChar (c : Char) : Bool := c.isAlphanum || c == '_'

/-- Python `str.split()` with no separator: split on runs of whitespace,
producing no empty words. The second argument accumulates the current word
in reverse. -/
def pySplitWs : List Char → List Char → List String
  | [], cur => if cur.isEmpty then [] else [String.mk cur.reverse]
  | c :: cs, cur =>
    if c.isWhitespace then
      if cur.isEmpty then pySplitWs cs [] else String.mk cur.reverse :: pySplitWs cs []
    else pySplitWs cs (c :: cur)

/-- `_title_words` (src/handler.py lines 229-232): lowercase the title, delete
every character that is neither a word character nor whitespace
(`re.sub(r"[^\w\s]", "", ...)`), split on whitespace, and keep the words that
are not stop words and are longer than 2 characters, as a set. -/
def titleWords (t : String) : Finset String :=
  ((pySplitWs ((t.data.map Char.toLower).filter
      (fun c => isWordChar c || c.isWhitespace)) []).filter
    (fun w => !stopWords.contains w && decide (2 < w.length))).toFinset

/-- `_jaccard` (src/handler.py lines 235-239): 0 when either set is empty,
otherwise intersection size over union size (exact rational in place of the
Python float; the comparison against 0.5 agrees). -/
def jaccard (a b : Finset String) : ℚ :=
  if a = ∅ ∨ b = ∅ then 0 else ((a ∩ b).card : ℚ) / ((a ∪ b).card : ℚ)

/-- The similarity test `_jaccard(...) > 0.5` of src/handler.py line 262,
made kernel-decidable: the rational comparison is equivalent to the integer
comparison `|a ∪ b| < 2 * |a ∩ b|` on nonempty sets. -/
instance jaccardGtHalf.instDecidable (a b : Finset String) :
    Decidable (jaccard a b > 1/2) :=
  decidable_of_iff (a ≠ ∅ ∧ b ≠ ∅ ∧ (a ∪ b).card < 2 * (a ∩ b).card) (by
    unfold jaccard
    by_cases ha : a = ∅
    · simp only [ha, true_or, if_pos]
      norm_num
    · by_cases hb : b = ∅
      · simp only [hb, or_true, if_pos]
        norm_num
      · simp only [ha, hb, or_self, if_neg, ne_eq, not_false_iff, true_and,
          gt_iff_lt, not_false_eq_true]
        have hu : (0 : ℚ) < ((a ∪ b).card : ℚ) := by
          have : (a ∪ b).Nonempty :=
            (Finset.nonempty_iff_ne_empty.mpr ha).mono Finset.subset_union_left
          exact_mod_cast Finset.card_pos.mpr this
        have hiff : (a ∪ b).card < 2 * (a ∩ b).card ↔
            (((a ∪ b).card : ℚ) < 2 * ((a ∩ b).card : ℚ)) := by exact_mod_cast Iff.rfl
        rw [hiff, div_lt_div_iff₀ (by norm_num) hu]
        constructor <;> intro h <;> linarith)

/-- The representative-quality score of `_dedup_by_title`
(src/handler.py lines 270-277): the Python tuple
`(bool(image_url), len(description))`. -/
def score (a : Article) : Bool × Nat := (a.image_url != "", a.description.length)

/-- Python tuple comparison `other_score > current_score` on
`(bool, int)` pairs: lexicographic, with `False < True`. -/
def scoreGt (x y : Bool × Nat) : Prop :=
  (x.1 = true ∧ y.1 = false) ∨ (x.1 = y.1 ∧ y.2 < x.2)

instance scoreGt.instDecidable (x y : Bool × Nat) : Decidable (scoreGt x y) := by
  unfold scoreGt; infer_instance

/-- `_normalize_url` (src/handler.py lines 209-215): keep scheme, host and
path only, i.e. cut the URL at the first `?` (query string) or `#`
(fragment). This models `urlunparse((p.scheme, p.netloc, p.path, "", "", ""))`
after `urlparse`; the try/except fallback to the raw string never fires for
the URLs modelled here, and cutting at the first `?`/`#` is exactly what the
rebuild does to them. -/
def normalizeUrl (url : String) : String :=
  String.mk (url.data.takeWhile (fun c => !(c == '?' || c == '#')))

/-- The loop of `_dedup_by_url` (src/handler.py lines 218-226), with the
insertion-ordered Python dict `seen_urls` replaced by the list of keys seen
so far: an article is skipped when its normalized key is empty or already
seen, otherwise it is emitted and its key recorded. `list(seen_urls.values())`
is exactly the emitted articles in input order. -/
def dedupByUrlAux : List Article → List String → List Article
  | [], _ => []
  | a :: rest, seen =>
    let key := normalizeUrl a.url
    if key = "" ∨ key ∈ seen then dedupByUrlAux rest seen
    else a :: dedupByUrlAux rest (key :: seen)

/-- `_dedup_by_url` (src/handler.py lines 218-226). -/
def dedupByUrl (articles : List Article) : List Article := dedupByUrlAux articles []

/-- The inner `for j in range(i+1, len(articles))` loop of `_dedup_by_title`
(src/handler.py lines 258-283), specialised to the not-yet-used later
articles in order. State: the current representative `rep` (the loop
variable `article`), its significant-word set `wordsRep` (`words_i`), the
source of the article that opened the cluster (`articles[i]`), and the
accumulated `also_reported_by`. Returns the final representative, the
accumulated list, and the articles left unconsumed (the complement of
`used`), in order. -/
def scanCluster (rep : Article) (wordsRep : Finset String) (origSource : String)
    (also : List String) : List Article → Article × List String × List Article
  | [] => (rep, also, [])
  | b :: rest =>
    if jaccard wordsRep (titleWords b.title) > 1/2 then
      let also1 := if b.source ≠ "" ∧ b.source ≠ rep.source then also ++ [b.source] else also
      if scoreGt (score b) (score rep) then
        let rep' := { b with also_reported_by := [] }
        let also2 := if rep'.source ≠ origSource then also1 ++ [origSource] else also1
        scanCluster rep' (titleWords rep'.title) origSource also2 rest
      else
        scanCluster rep wordsRep origSource also1 rest
    else
      let out := scanCluster rep wordsRep origSource also rest
      (out.1, out.2.1, b :: out.2.2)

theorem scanCluster_rem_length (cands : List Article) :
    ∀ rep wordsRep origSource also,
      (scanCluster rep wordsRep origSource also cands).2.2.length ≤ cands.length := by
  induction cands with
  | nil => intro rep w o al; simp [scanCluster]
  | cons b rest ih =>
    intro rep w o al
    simp only [scanCluster]
    split
    · split
      · exact (ih _ _ _ _).trans (Nat.le_succ _)
      · exact (ih _ _ _ _).trans (Nat.le_succ _)
    · simpa using ih rep w o al

/-- The outer loop of `_dedup_by_title` (src/handler.py lines 248-288),
structured by fuel so that the definition computes by kernel reduction; the
fuel is initialised to the list length, which `scanCluster_rem_length` shows
is always sufficient, so the `fuel = 0` branch is unreachable. -/
def dedupByTitleGo : Nat → List Article → List Article
  | _, [] => []
  | 0, _ :: _ => []
  | fuel + 1, a :: rest =>
    let out := scanCluster a (titleWords a.title) a.source a.also_reported_by rest
    { out.1 with also_reported_by := out.2.1 } :: dedupByTitleGo fuel out.2.2

/-- `_dedup_by_title` (src/handler.py lines 242-288). -/
def dedupByTitle (articles : List Article) : List Article :=
  dedupByTitleGo articles.length articles

/-- The `_score` key of `_rerank` (src/handler.py lines 301-304):
`(len(also_reported_by), published_at)`. -/
def scoreKey (a : Article) : Nat × String := (a.also_reported_by.length, a.published_at)

/-- Python string `<=`: plain lexicographic comparison by code point. -/
def lexLe : List Char → List Char → Bool
  | [], _ => true
  | _ :: _, [] => false
  | a :: as, b :: bs =>
    if a.toNat < b.toNat then true
    else if b.toNat < a.toNat then false
    else lexLe as bs

/-- Python tuple `<=` on `(int, str)` pairs: lexicographic, strings compared
lexicographically by code point. -/
def keyLe (x y : Nat × String) : Prop :=
  x.1 < y.1 ∨ (x.1 = y.1 ∧ lexLe x.2.data y.2.data = true)

instance keyLe.instDecidable (x y : Nat × String) : Decidable (keyLe x y) := by
  unfold keyLe; infer_instance

/-- `_rerank` (src/handler.py lines 293-306): `sorted(articles, key=_score,
reverse=True)`. Python's sort is stable; `reverse=True` orders keys
descending while equal-key articles retain input order. `mergeSort` with
"may precede" relation `scoreKey b ≤ scoreKey a` is the same stable
descending sort. -/
def rerank (articles : List Article) : List Article :=
  articles.mergeSort (fun a b => decide (keyLe (scoreKey b) (scoreKey a)))

/-- The consolidation pipeline of `execute` (src/handler.py lines 87-94):
URL dedup, then title dedup, then rerank. -/
def consolidate (raw : List Article) : List Article :=
  rerank (dedupByTitle (dedupByUrl raw))

/-- The fields of the dict returned by `execute` that the pipeline
determines (src/handler.py lines 110-113). -/
structure ExecResult where
  results : List Article
  count : Nat
  query : String
deriving DecidableEq, Repr

/-- The effective limit of `execute` (src/handler.py line 54):
`max(1, min(8, int(params.get("limit") or 5)))`. A missing limit is `none`;
`some 0` is falsy in Python, so `or 5` replaces it too. -/
def limitOf (lim : Option Int) : Int :=
  max 1 (min 8 (match lim with | none => 5 | some v => if v = 0 then 5 else v))

/-- Python `str.strip()`: remove leading and trailing whitespace. -/
def pyStrip (s : String) : String :=
  String.mk (((s.data.dropWhile Char.isWhitespace).reverse.dropWhile Char.isWhitespace).reverse)

/-- `execute` after the external fetch (src/handler.py lines 50-54 and
87-113): empty stripped query short-circuits to an empty result; otherwise
the consolidation pipeline runs and the ranked list is truncated to the
effective limit. The fetch itself (and its error early-return) is the
external collaborator and is not modelled; `raw` is the fetched list. -/
def executeCore (query : String) (lim : Option Int) (raw : List Article) : ExecResult :=
  let q := pyStrip query
  if q = "" then ⟨[], 0, ""⟩
  else
    let results := (consolidate raw).take (limitOf lim).toNat
    ⟨results, results.length, q⟩

/-- All fields of an article except `also_reported_by`: the identity of the
kept representative, independent of the cross-reference bookkeeping. -/
def articleCore (a : Article) :
    String × String × String × String × String × String × String :=
  (a.title, a.source, a.date, a.published_at, a.description, a.url, a.image_url)

/-! ## Helper lemmas: URL deduplication -/

theorem dedupByUrlAux_sublist : ∀ (l : List Article) (seen : List String),
    (dedupByUrlAux l seen).Sublist l := by
  intro l
  induction l with
  | nil => intro seen; simp [dedupByUrlAux]
  | cons a rest ih =>
    intro seen
    simp only [dedupByUrlAux]
    split
    · exact (ih seen).cons a
    · exact (ih _).cons₂ a

theorem dedupByUrlAux_key_ne_empty : ∀ (l : List Article) (seen : List String)
    (a : Article), a ∈ dedupByUrlAux l seen → normalizeUrl a.url ≠ "" := by
  intro l
  induction l with
  | nil => intro seen a h; simp [dedupByUrlAux] at h
  | cons b rest ih =>
    intro seen a h
    simp only [dedupByUrlAux] at h
    split at h
    · exact ih seen a h
    · rename_i hcond
      rcases List.mem_cons.mp h with rfl | hmem
      · intro he
        exact hcond (Or.inl he)
      · exact ih _ a hmem

theorem dedupByUrlAux_filter (k : String) (hk : k ≠ "") :
    ∀ (l : List Article) (seen : List String),
      (dedupByUrlAux l seen).filter (fun a => decide (normalizeUrl a.url = k)) =
        if k ∈ seen then []
        else (l.filter (fun a => decide (normalizeUrl a.url = k))).take 1 := by
  intro l
  induction l with
  | nil => intro seen; simp [dedupByUrlAux]
  | cons a rest ih =>
    intro seen
    simp only [dedupByUrlAux]
    split
    · rename_i hcond
      rw [ih seen]
      by_cases hm : k ∈ seen
      · simp [hm]
      · simp only [hm, if_false]
        by_cases hak : normalizeUrl a.url = k
        · rcases hcond with he | hs
          · exact absurd (hak ▸ he) hk
          · exact absurd (hak ▸ hs) hm
        · simp [List.filter_cons, hak]
    · rename_i hcond
      push_neg at hcond
      by_cases hak : normalizeUrl a.url = k
      · subst hak
        rw [List.filter_cons_of_pos (by simp), List.filter_cons_of_pos (by simp),
          ih (normalizeUrl a.url :: seen)]
        simp [hcond.2]
      · rw [List.filter_cons_of_neg (by simp [hak]), List.filter_cons_of_neg (by simp [hak]),
          ih (normalizeUrl a.url :: seen)]
        simp only [List.mem_cons]
        have hka : ¬ k = normalizeUrl a.url := fun h => hak h.symm
        simp [hka]

/-! ## C1: articles with an empty normalized URL key -/

/-- C1 (counterexample): the claim says an article whose normalized URL key
is empty "is treated as unique and appears in the output". In the code the
guard `if not key or key in seen_urls: continue` (src/handler.py line 223)
skips an empty-key article outright, so it is dropped: a single article with
an empty URL yields an empty output. -/
theorem C1_counterexample :
    normalizeUrl (Article.mk "Quake hits coast" "Wire" "" "" "" "" "" []).url = "" ∧
    dedupByUrl [Article.mk "Quake hits coast" "Wire" "" "" "" "" "" []] = [] := by
  decide

/-- C1 (amended): articles with an empty normalized URL key are never
deduplicated against each other and an empty key is never recorded as seen —
but they are dropped from the output, not kept: every surviving article has
a non-empty normalized key, and an empty-key article is skipped without any
effect on the rest of the deduplication. -/
theorem C1_empty_key_dropped :
    (∀ (l : List Article) (a : Article), a ∈ dedupByUrl l → normalizeUrl a.url ≠ "") ∧
    (∀ (x : Article) (l : List Article), normalizeUrl x.url = "" →
      dedupByUrl (x :: l) = dedupByUrl l) := by
  constructor
  · intro l a h
    exact dedupByUrlAux_key_ne_empty l [] a h
  · intro x l hx
    simp [dedupByUrl, dedupByUrlAux, hx]

/-- C1 (witness): the amended theorem applied to a concrete two-article
list whose first article has an empty URL. -/
theorem C1_empty_key_dropped_witness :
    dedupByUrl [Article.mk "Quake hits coast" "Wire" "" "" "" "" "" [],
        Article.mk "Other" "S" "" "" "" "https://a.com/x" "" []] =
      dedupByUrl [Article.mk "Other" "S" "" "" "" "https://a.com/x" "" []] :=
  C1_empty_key_dropped.2 (Article.mk "Quake hits coast" "Wire" "" "" "" "" "" [])
    [Article.mk "Other" "S" "" "" "" "https://a.com/x" "" []] (by decide)

/-! ## C4: URL dedup keeps exactly the first of each non-empty key group -/

/-- C4: for every input list and every non-empty normalized key `k`, the
articles of `dedupByUrl l` whose key is `k` are exactly the first article of
`l` with key `k` (exactly one survivor per group, the first-seen one), and
the output is a sublist of the input (relative order among survivors is
preserved). -/
theorem C4_url_dedup_first_seen (l : List Article) (k : String) (hk : k ≠ "") :
    (dedupByUrl l).filter (fun a => decide (normalizeUrl a.url = k)) =
      (l.filter (fun a => decide (normalizeUrl a.url = k))).take 1 ∧
    (dedupByUrl l).Sublist l := by
  refine ⟨?_, dedupByUrlAux_sublist l []⟩
  rw [dedupByUrl, dedupByUrlAux_filter k hk l []]
  simp

/-- C4 (witness): three articles whose URLs differ only in query string or
fragment collapse to the first one. -/
theorem C4_url_dedup_first_seen_witness :
    (dedupByUrl [Article.mk "T1" "A" "" "" "" "https://a.com/x?utm=1" "" [],
        Article.mk "T2" "B" "" "" "" "https://a.com/x#frag" "" [],
        Article.mk "T3" "C" "" "" "" "https://b.com/y" "" []]).filter
        (fun a => decide (normalizeUrl a.url = "https://a.com/x")) =
      ([Article.mk "T1" "A" "" "" "" "https://a.com/x?utm=1" "" [],
        Article.mk "T2" "B" "" "" "" "https://a.com/x#frag" "" [],
        Article.mk "T3" "C" "" "" "" "https://b.com/y" "" []].filter
        (fun a => decide (normalizeUrl a.url = "https://a.com/x"))).take 1 ∧
    (dedupByUrl [Article.mk "T1" "A" "" "" "" "https://a.com/x?utm=1" "" [],
        Article.mk "T2" "B" "" "" "" "https://a.com/x#frag" "" [],
        Article.mk "T3" "C" "" "" "" "https://b.com/y" "" []]).Sublist
      [Article.mk "T1" "A" "" "" "" "https://a.com/x?utm=1" "" [],
        Article.mk "T2" "B" "" "" "" "https://a.com/x#frag" "" [],
        Article.mk "T3" "C" "" "" "" "https://b.com/y" "" []] :=
  C4_url_dedup_first_seen _ "https://a.com/x" (by decide)

/-! ## Helper lemmas: title deduplication -/

theorem scoreGt_irrefl (x : Bool × Nat) : ¬ scoreGt x x := by
  rcases x with ⟨b, n⟩
  rcases b <;> simp [scoreGt]

theorem scanCluster_no_swap (cands : List Article) : ∀ rep w orig also,
    (∀ b ∈ cands, ¬ scoreGt (score b) (score rep)) →
    (scanCluster rep w orig also cands).1 = rep ∧
    (∀ s ∈ (scanCluster rep w orig also cands).2.1, s ∈ also ∨ s ≠ rep.source) ∧
    (∀ b ∈ (scanCluster rep w orig also cands).2.2, b ∈ cands) := by
  induction cands with
  | nil =>
    intro rep w orig also _
    exact ⟨rfl, fun s hs => Or.inl hs, by simp [scanCluster]⟩
  | cons b rest ih =>
    intro rep w orig also h
    have hb : ¬ scoreGt (score b) (score rep) := h b (List.mem_cons_self b rest)
    have hrest : ∀ x ∈ rest, ¬ scoreGt (score x) (score rep) :=
      fun x hx => h x (List.mem_cons_of_mem b hx)
    by_cases hj : jaccard w (titleWords b.title) > 1/2
    · have heq : scanCluster rep w orig also (b :: rest) =
          scanCluster rep w orig
            (if b.source ≠ "" ∧ b.source ≠ rep.source then also ++ [b.source] else also)
            rest := by
        simp only [scanCluster, if_pos hj, if_neg hb]
      rw [heq]
      obtain ⟨h1, h2, h3⟩ := ih rep w orig _ hrest
      refine ⟨h1, ?_, fun x hx => List.mem_cons_of_mem b (h3 x hx)⟩
      intro s hs
      rcases h2 s hs with hmem | hne
      · by_cases hg : b.source ≠ "" ∧ b.source ≠ rep.source
        · rw [if_pos hg] at hmem
          rcases List.mem_append.mp hmem with hmem' | hmem'
          · exact Or.inl hmem'
          · have hsb : s = b.source := by simpa using hmem'
            exact Or.inr (hsb ▸ hg.2)
        · rw [if_neg hg] at hmem
          exact Or.inl hmem
      · exact Or.inr hne
    · have heq : scanCluster rep w orig also (b :: rest) =
          ((scanCluster rep w orig also rest).1,
            (scanCluster rep w orig also rest).2.1,
            b :: (scanCluster rep w orig also rest).2.2) := by
        simp only [scanCluster, if_neg hj]
      rw [heq]
      obtain ⟨h1, h2, h3⟩ := ih rep w orig also hrest
      refine ⟨h1, h2, ?_⟩
      intro x hx
      rcases List.mem_cons.mp hx with rfl | hx'
      · exact List.mem_cons_self x rest
      · exact List.mem_cons_of_mem b (h3 x hx')

theorem dedupByTitleGo_no_self_ref : ∀ (fuel : Nat) (l : List Article),
    l.length ≤ fuel →
    (∀ x ∈ l, x.also_reported_by = []) →
    (∀ x ∈ l, ∀ y ∈ l, ¬ scoreGt (score x) (score y)) →
    ∀ a ∈ dedupByTitleGo fuel l, ∀ s ∈ a.also_reported_by, s ≠ a.source := by
  intro fuel
  induction fuel with
  | zero =>
    intro l hl _ _ a ha
    interval_cases hlen : l.length
    · rw [List.length_eq_zero.mp hlen] at ha
      simp [dedupByTitleGo] at ha
  | succ fuel ih =>
    intro l hl halso hsc a ha
    match l with
    | [] => simp [dedupByTitleGo] at ha
    | x :: rest =>
      have hx0 : x.also_reported_by = [] := halso x (List.mem_cons_self x rest)
      have hns : ∀ b ∈ rest, ¬ scoreGt (score b) (score x) := fun b hb =>
        hsc b (List.mem_cons_of_mem x hb) x (List.mem_cons_self x rest)
      obtain ⟨h1, h2, h3⟩ :=
        scanCluster_no_swap rest x (titleWords x.title) x.source x.also_reported_by hns
      simp only [dedupByTitleGo] at ha
      rcases List.mem_cons.mp ha with rfl | hmem
      · intro s hs
        simp only [h1] at hs ⊢
        rcases h2 s hs with hmem' | hne
        · rw [hx0] at hmem'
          simp at hmem'
        · exact hne
      · have hlen : (scanCluster x (titleWords x.title) x.source
            x.also_reported_by rest).2.2.length ≤ fuel :=
          le_trans (scanCluster_rem_length rest _ _ _ _) (Nat.le_of_succ_le_succ hl)
        exact ih _ hlen
          (fun y hy => halso y (List.mem_cons_of_mem x (h3 y hy)))
          (fun y hy z hz => hsc y (List.mem_cons_of_mem x (h3 y hy))
            z (List.mem_cons_of_mem x (h3 z hz)))
          a hmem

theorem score_with_also (x : Article) (al : List String) :
    score { x with also_reported_by := al } = score x := rfl

/-! ## C5: merge exactly when Jaccard similarity exceeds 0.5 -/

/-- C5: two articles merge into one story exactly when the Jaccard
similarity of their titles' significant-word sets is strictly greater than
0.5 (src/handler.py line 262); similarity ≤ 0.5 never merges, > 0.5 always
merges. -/
theorem C5_title_merge_iff (a b : Article) :
    (dedupByTitle [a, b]).length = 1 ↔
      jaccard (titleWords a.title) (titleWords b.title) > 1/2 := by
  by_cases h : jaccard (titleWords a.title) (titleWords b.title) > 1/2
  all_goals simp only [gt_iff_lt, one_div] at h
  · by_cases hs : scoreGt (score b) (score a)
    · simp [dedupByTitle, dedupByTitleGo, scanCluster, h, hs]
    · simp [dedupByTitle, dedupByTitleGo, scanCluster, h, hs]
  · simp [dedupByTitle, dedupByTitleGo, scanCluster, h]

/-! ## C6: representative selection -/

/-- C6: when two similar articles are compared, the one with a non-empty
`image_url` is kept regardless of description lengths, and when the
`(has_image_url, description_length)` score tuples are equal the current
representative is kept (src/handler.py lines 269-280). `articleCore`
projects every field except the rewritten `also_reported_by`. -/
theorem C6_representative_selection (a b : Article)
    (hsim : jaccard (titleWords a.title) (titleWords b.title) > 1/2) :
    ((a.image_url = "" ∧ b.image_url ≠ "") →
      (dedupByTitle [a, b]).map articleCore = [articleCore b]) ∧
    ((a.image_url ≠ "" ∧ b.image_url = "") →
      (dedupByTitle [a, b]).map articleCore = [articleCore a]) ∧
    (score a = score b →
      (dedupByTitle [a, b]).map articleCore = [articleCore a]) := by
  simp only [gt_iff_lt, one_div] at hsim
  refine ⟨?_, ?_, ?_⟩
  · rintro ⟨h1, h2⟩
    have hs : scoreGt (score b) (score a) :=
      Or.inl ⟨by simp [score, h2], by simp [score, h1]⟩
    simp [dedupByTitle, dedupByTitleGo, scanCluster, hsim, hs, articleCore]
  · rintro ⟨h1, h2⟩
    have hs : ¬ scoreGt (score b) (score a) := by
      simp [score, scoreGt, h1, h2]
    simp [dedupByTitle, dedupByTitleGo, scanCluster, hsim, hs, articleCore]
  · intro heq
    have hs : ¬ scoreGt (score b) (score a) := by
      rw [heq]; exact scoreGt_irrefl _
    simp [dedupByTitle, dedupByTitleGo, scanCluster, hsim, hs, articleCore]

/-- C6 (witness): an imageless article loses to an image-bearing one with
identical title; and equal scores keep the first. -/
theorem C6_representative_selection_witness :
    (((Article.mk "alpha beta" "A" "" "" "" "u" "" []).image_url = "" ∧
        (Article.mk "alpha beta" "B" "" "" "" "u" "img" []).image_url ≠ "") →
      (dedupByTitle [Article.mk "alpha beta" "A" "" "" "" "u" "" [],
          Article.mk "alpha beta" "B" "" "" "" "u" "img" []]).map articleCore =
        [articleCore (Article.mk "alpha beta" "B" "" "" "" "u" "img" [])]) ∧
    (((Article.mk "alpha beta" "A" "" "" "" "u" "" []).image_url ≠ "" ∧
        (Article.mk "alpha beta" "B" "" "" "" "u" "img" []).image_url = "") →
      (dedupByTitle [Article.mk "alpha beta" "A" "" "" "" "u" "" [],
          Article.mk "alpha beta" "B" "" "" "" "u" "img" []]).map articleCore =
        [articleCore (Article.mk "alpha beta" "A" "" "" "" "u" "" [])]) ∧
    (score (Article.mk "alpha beta" "A" "" "" "" "u" "" []) =
        score (Article.mk "alpha beta" "B" "" "" "" "u" "img" []) →
      (dedupByTitle [Article.mk "alpha beta" "A" "" "" "" "u" "" [],
          Article.mk "alpha beta" "B" "" "" "" "u" "img" []]).map articleCore =
        [articleCore (Article.mk "alpha beta" "A" "" "" "" "u" "" [])]) :=
  C6_representative_selection
    (Article.mk "alpha beta" "A" "" "" "" "u" "" [])
    (Article.mk "alpha beta" "B" "" "" "" "u" "img" []) (by decide)

/-! ## C2: what a representative swap appends to also_reported_by -/

/-- C2 (counterexample): three same-title articles with sources A, B, C and
strictly increasing description lengths produce two representative swaps.
The claim says the source appended on a swap is that of the *previous
representative*, which for the second swap is B, predicting
`["B", "A", "C", "B"]`. The code (src/handler.py line 282) appends
`articles[i]`'s source — the article that opened the cluster — so the second
swap appends "A" again and the output is `["B", "A", "C", "A"]`. -/
theorem C2_counterexample :
    (dedupByTitle [Article.mk "red green blue" "A" "" "" "" "u" "" [],
        Article.mk "red green blue" "B" "" "" "x" "u" "" [],
        Article.mk "red green blue" "C" "" "" "xy" "u" "" []]).map
      (fun x => (x.source, x.also_reported_by)) = [("C", ["B", "A", "C", "A"])] := by
  decide

/-- C2 (amended): when `j` wins the comparison, the representative swaps to
`j`'s data with its own `also_reported_by` reset to empty, its word set is
recomputed for subsequent comparisons, and the source appended to the
accumulator is that of the article that opened the cluster (`articles[i]`) —
not the previous representative's — appended when it differs from the new
representative's source. Stated for a three-article cluster with two swaps:
both swaps append `a`'s source. -/
theorem C2_swap_appends_cluster_head_source (a b c : Article)
    (hab : jaccard (titleWords a.title) (titleWords b.title) > 1/2)
    (hba : scoreGt (score b) (score a))
    (hbc : jaccard (titleWords b.title) (titleWords c.title) > 1/2)
    (hcb : scoreGt (score c) (score b)) :
    dedupByTitle [a, b, c] =
      [{ c with also_reported_by :=
          (let al1 := if b.source ≠ "" ∧ b.source ≠ a.source
              then a.also_reported_by ++ [b.source] else a.also_reported_by
           let al2 := if b.source ≠ a.source then al1 ++ [a.source] else al1
           let al3 := if c.source ≠ "" ∧ c.source ≠ b.source
              then al2 ++ [c.source] else al2
           if c.source ≠ a.source then al3 ++ [a.source] else al3) }] := by
  simp only [gt_iff_lt, one_div] at hab hbc
  simp [dedupByTitle, dedupByTitleGo, scanCluster, score_with_also, hab, hba, hbc, hcb]

/-- C2 (witness): the amended theorem applied to the three concrete articles
of the counterexample. -/
theorem C2_swap_appends_cluster_head_source_witness :
    dedupByTitle [Article.mk "red green blue" "A" "" "" "" "u" "" [],
        Article.mk "red green blue" "B" "" "" "x" "u" "" [],
        Article.mk "red green blue" "C" "" "" "xy" "u" "" []] =
      [{ Article.mk "red green blue" "C" "" "" "xy" "u" "" [] with also_reported_by :=
          (let al1 := if ("B" : String) ≠ "" ∧ ("B" : String) ≠ "A"
              then ([] : List String) ++ ["B"] else ([] : List String)
           let al2 := if ("B" : String) ≠ "A" then al1 ++ ["A"] else al1
           let al3 := if ("C" : String) ≠ "" ∧ ("C" : String) ≠ "B"
              then al2 ++ ["C"] else al2
           if ("C" : String) ≠ "A" then al3 ++ ["A"] else al3) }] :=
  C2_swap_appends_cluster_head_source
    (Article.mk "red green blue" "A" "" "" "" "u" "" [])
    (Article.mk "red green blue" "B" "" "" "x" "u" "" [])
    (Article.mk "red green blue" "C" "" "" "xy" "u" "" [])
    (by decide) (by decide) (by decide) (by decide)

/-! ## C3: no self-reference in also_reported_by -/

/-- C3 (counterexample): two same-title articles, the first without an image
(source "A"), the second with one (source "B"). At the merge the code first
appends "B" (it differs from the then-representative's source "A",
src/handler.py line 266) and only then swaps the representative to the "B"
article (line 280), so the surviving article has source "B" and
`also_reported_by = ["B", "A"]` — containing its own source. -/
theorem C3_counterexample :
    (dedupByTitle [Article.mk "red green blue" "A" "" "" "" "u" "" [],
        Article.mk "red green blue" "B" "" "" "" "u" "img" []]).map
      (fun x => (x.source, x.also_reported_by)) = [("B", ["B", "A"])] ∧
    (dedupByTitle [Article.mk "red green blue" "A" "" "" "" "u" "" [],
        Article.mk "red green blue" "B" "" "" "" "u" "img" []]).any
      (fun x => x.also_reported_by.contains x.source) = true := by
  decide

/-- C3 (amended): entries are only guaranteed distinct from the source of
the representative *at the time they are appended*; a later swap can leave
the new representative's own source in the list. In the absence of swaps —
e.g. when no article beats another on the `(has_image_url,
description_length)` score — and for input articles carrying empty
`also_reported_by` (as all pipeline inputs do), no emitted article's
`also_reported_by` contains its own `source`. -/
theorem C3_no_self_reference_without_swap (l : List Article)
    (halso : ∀ x ∈ l, x.also_reported_by = [])
    (hsc : ∀ x ∈ l, ∀ y ∈ l, ¬ scoreGt (score x) (score y)) :
    ∀ a ∈ dedupByTitle l, ∀ s ∈ a.also_reported_by, s ≠ a.source :=
  dedupByTitleGo_no_self_ref l.length l le_rfl halso hsc

/-- C3 (witness): the amended theorem applied to two same-title,
equal-score articles with sources "A" and "B": the surviving article is the
first one carrying `also_reported_by = ["B"]`, and its entry "B" differs
from its source. -/
theorem C3_no_self_reference_without_swap_witness :
    ("B" : String) ≠ (Article.mk "alpha beta" "A" "" "" "" "u" "" ["B"]).source :=
  C3_no_self_reference_without_swap
    [Article.mk "alpha beta" "A" "" "" "" "u" "" [],
      Article.mk "alpha beta" "B" "" "" "" "u" "" []]
    (by decide) (by decide)
    (Article.mk "alpha beta" "A" "" "" "" "u" "" ["B"]) (by decide)
    "B" (by decide)

/-! ## Helper lemmas: the rerank order -/

theorem lexLe_refl : ∀ l : List Char, lexLe l l = true := by
  intro l
  induction l with
  | nil => rfl
  | cons a as ih => simp [lexLe, ih]

theorem lexLe_total : ∀ a b : List Char, lexLe a b = true ∨ lexLe b a = true := by
  intro a
  induction a with
  | nil => intro b; exact Or.inl rfl
  | cons x xs ih =>
    intro b
    cases b with
    | nil => exact Or.inr rfl
    | cons y ys =>
      rcases Nat.lt_trichotomy x.toNat y.toNat with h | h | h
      · exact Or.inl (by simp [lexLe, h])
      · have h2 : ¬ x.toNat < y.toNat := by omega
        have h3 : ¬ y.toNat < x.toNat := by omega
        rcases ih ys with hh | hh
        · exact Or.inl (by simp [lexLe, h2, h3, hh])
        · exact Or.inr (by simp [lexLe, h2, h3, hh])
      · exact Or.inr (by simp [lexLe, h])

theorem lexLe_trans : ∀ a b c : List Char,
    lexLe a b = true → lexLe b c = true → lexLe a c = true := by
  intro a
  induction a with
  | nil => intro b c _ _; rfl
  | cons x xs ih =>
    intro b c hab hbc
    cases b with
    | nil => simp [lexLe] at hab
    | cons y ys =>
      cases c with
      | nil => simp [lexLe] at hbc
      | cons z zs =>
        by_cases hxy : x.toNat < y.toNat
        · by_cases hyz : y.toNat < z.toNat
          · simp [lexLe, show x.toNat < z.toNat by omega]
          · by_cases hzy : z.toNat < y.toNat
            · simp [lexLe, hyz, hzy] at hbc
            · simp [lexLe, show x.toNat < z.toNat by omega]
        · by_cases hyx : y.toNat < x.toNat
          · simp [lexLe, hxy, hyx] at hab
          · have hxsys : lexLe xs ys = true := by simpa [lexLe, hxy, hyx] using hab
            by_cases hyz : y.toNat < z.toNat
            · simp [lexLe, show x.toNat < z.toNat by omega]
            · by_cases hzy : z.toNat < y.toNat
              · simp [lexLe, hyz, hzy] at hbc
              · have hyszs : lexLe ys zs = true := by simpa [lexLe, hyz, hzy] using hbc
                simp [lexLe, show ¬ x.toNat < z.toNat by omega,
                  show ¬ z.toNat < x.toNat by omega, ih ys zs hxsys hyszs]

theorem keyLe_refl (x : Nat × String) : keyLe x x := Or.inr ⟨rfl, lexLe_refl _⟩

theorem keyLe_trans {x y z : Nat × String} (h1 : keyLe x y) (h2 : keyLe y z) :
    keyLe x z := by
  rcases h1 with h1 | ⟨e1, l1⟩ <;> rcases h2 with h2 | ⟨e2, l2⟩
  · exact Or.inl (h1.trans h2)
  · exact Or.inl (by omega)
  · exact Or.inl (by omega)
  · exact Or.inr ⟨e1.trans e2, lexLe_trans _ _ _ l1 l2⟩

theorem keyLe_total (x y : Nat × String) : keyLe x y ∨ keyLe y x := by
  rcases Nat.lt_trichotomy x.1 y.1 with h | h | h
  · exact Or.inl (Or.inl h)
  · rcases lexLe_total x.2.data y.2.data with hl | hl
    · exact Or.inl (Or.inr ⟨h, hl⟩)
    · exact Or.inr (Or.inr ⟨h.symm, hl⟩)
  · exact Or.inr (Or.inl h)

/-! ## C7: rerank is a stable descending sort -/

/-- C7: `_rerank` (src/handler.py lines 293-306) is a stable sort,
descending by `(len(also_reported_by), published_at)` with plain
lexicographic string comparison: the output is a permutation of the input,
consecutive outputs are non-increasing in the key order `keyLe` (so bigger
multi-source stories precede, with the timestamp string breaking ties),
articles with equal key pairs retain their prior relative order (the filter
by any fixed key is unchanged), and the empty timestamp string is lowest
among equal source counts. -/
theorem C7_rerank_stable_descending_sort (l : List Article) :
    (rerank l).Perm l ∧
    (rerank l).Pairwise (fun a b => keyLe (scoreKey b) (scoreKey a)) ∧
    (∀ k : Nat × String, (rerank l).filter (fun a => decide (scoreKey a = k)) =
      l.filter (fun a => decide (scoreKey a = k))) ∧
    (∀ (n : Nat) (s : String), keyLe (n, "") (n, s)) := by
  have htrans : ∀ a b c : Article,
      decide (keyLe (scoreKey b) (scoreKey a)) →
      decide (keyLe (scoreKey c) (scoreKey b)) →
      decide (keyLe (scoreKey c) (scoreKey a)) := by
    intro a b c h1 h2
    rw [decide_eq_true_eq] at h1 h2 ⊢
    exact keyLe_trans h2 h1
  have htotal : ∀ a b : Article,
      decide (keyLe (scoreKey b) (scoreKey a)) ||
        decide (keyLe (scoreKey a) (scoreKey b)) := by
    intro a b
    rcases keyLe_total (scoreKey b) (scoreKey a) with h | h <;> simp [h]
  refine ⟨List.mergeSort_perm l _, ?_, ?_, fun n s => Or.inr ⟨rfl, rfl⟩⟩
  · exact (List.sorted_mergeSort htrans htotal l).imp (fun h => of_decide_eq_true h)
  · intro k
    have hkmem : ∀ x ∈ l.filter (fun a => decide (scoreKey a = k)), scoreKey x = k :=
      fun x hx => of_decide_eq_true (List.mem_filter.mp hx).2
    have hkpair : (l.filter (fun a => decide (scoreKey a = k))).Pairwise
        (fun a b => decide (keyLe (scoreKey b) (scoreKey a)) = true) := by
      apply List.pairwise_of_forall_mem_list
      intro x hx y hy
      rw [hkmem x hx, hkmem y hy, decide_eq_true_eq]
      exact keyLe_refl k
    have hsub2 := List.sublist_mergeSort htrans htotal hkpair (List.filter_sublist l)
    have hsub3 := hsub2.filter (fun a => decide (scoreKey a = k))
    rw [List.filter_eq_self.mpr (fun a ha => (List.mem_filter.mp ha).2)] at hsub3
    have hperm := (List.mergeSort_perm l
      (fun a b => decide (keyLe (scoreKey b) (scoreKey a)))).filter
      (fun a => decide (scoreKey a = k))
    exact (hsub3.eq_of_length hperm.length_eq.symm).symm

/-! ## C8: empty input -/

/-- C8: the empty article list is valid for every pipeline stage: URL dedup,
title dedup and rerank all map `[]` to `[]`, and the assembled response has
an empty results list and a zero count. All stages are total functions of
the embedding, so no input raises an error. -/
theorem C8_empty_input (q : String) (lim : Option Int) :
    dedupByUrl [] = [] ∧ dedupByTitle [] = [] ∧ rerank [] = [] ∧
    (executeCore q lim []).results = [] ∧ (executeCore q lim []).count = 0 := by
  refine ⟨rfl, rfl, by simp [rerank], ?_, ?_⟩ <;>
    by_cases hq : pyStrip q = "" <;>
      simp [executeCore, hq, consolidate, dedupByUrl, dedupByUrlAux,
        dedupByTitle, dedupByTitleGo, rerank]

/-! ## C9: determinism -/

/-- C9: the consolidation pipeline is a pure function of its input: running
the composed stages (and the full response assembly) twice on the same
input yields identical output. In this embedding every stage is a function,
so two runs are literally the same term. -/
theorem C9_pipeline_deterministic (l : List Article) (q : String) (lim : Option Int) :
    consolidate l = consolidate l ∧ executeCore q lim l = executeCore q lim l :=
  ⟨rfl, rfl⟩

/-! ## C10: count, limit clamping, truncation after ranking -/

/-- C10: the response always satisfies `count = len(results)`; the results
never exceed the effective limit; the effective limit is clamped to 1..8 and
defaults to 5 when the parameter is absent; and for a non-empty query the
results are exactly the ranked list truncated to the limit (truncation
happens after ranking). -/
theorem C10_count_limit_truncation (q : String) (lim : Option Int) (raw : List Article) :
    (executeCore q lim raw).count = (executeCore q lim raw).results.length ∧
    (executeCore q lim raw).results.length ≤ (limitOf lim).toNat ∧
    1 ≤ limitOf lim ∧ limitOf lim ≤ 8 ∧
    (lim = none → limitOf lim = 5) ∧
    (pyStrip q ≠ "" →
      (executeCore q lim raw).results = (consolidate raw).take (limitOf lim).toNat) := by
  have hb1 : 1 ≤ limitOf lim := le_max_left _ _
  have hb2 : limitOf lim ≤ 8 := max_le (by norm_num) (min_le_left _ _)
  refine ⟨?_, ?_, hb1, hb2, ?_, ?_⟩
  · by_cases hq : pyStrip q = "" <;> simp [executeCore, hq]
  · by_cases hq : pyStrip q = ""
    · simp [executeCore, hq]
    · simp only [executeCore, if_neg hq]
      exact List.length_take_le _ _
  · rintro rfl; decide
  · intro hq
    simp [executeCore, hq]

/-- C10 (witness): the theorem at query `"news"`, absent limit and empty
article list, with both inner hypotheses discharged. -/
theorem C10_count_limit_truncation_witness :
    (executeCore "news" none []).count = (executeCore "news" none []).results.length ∧
    (executeCore "news" none []).results.length ≤ (limitOf none).toNat ∧
    1 ≤ limitOf none ∧ limitOf none ≤ 8 ∧
    limitOf none = 5 ∧
    (executeCore "news" none []).results = (consolidate []).take (limitOf none).toNat :=
  ⟨(C10_count_limit_truncation "news" none []).1,
    (C10_count_limit_truncation "news" none []).2.1,
    (C10_count_limit_truncation "news" none []).2.2.1,
    (C10_count_limit_truncation "news" none []).2.2.2.1,
    (C10_count_limit_truncation "news" none []).2.2.2.2.1 rfl,
    (C10_count_limit_truncation "news" none []).2.2.2.2.2 (by decide)⟩
